import Mathlib

/-!
Shallow embedding of `quarry/types/registry.py`.

The module defines three id-translation strategies behind one interface:
`OpaqueRegistry` (identity), `BitShiftRegistry` (legacy packed integers:
primary id in the high bits, 4-bit auxiliary value in the low bits) and
`LookupRegistry` (table-driven, built from a data dump).

Modelling conventions:
* Python integers that occur here are protocol ids and are non-negative;
  they are modelled as `Nat`.
* A Python `dict` is modelled as the list of `(key, value)` bindings in
  assignment order; `d[k] = v` appends a binding and lookup (`dget`)
  returns the value of the most recent binding for the key, so duplicate
  assignments behave as last-write-wins exactly as in Python.
* A failed lookup (Python `KeyError`/`IndexError`, both subclasses of
  `LookupError`) is modelled as `Option.none`; a successful call returns
  `some`.
* Failures inside `LookupRegistry.__init__` (Python `ValueError` from
  `max()` on an empty sequence or from `math.log(0, 2)`) are modelled by
  the constructor returning `Except.error` with a `ConstructionError`,
  a type disjoint from the `Option` used for lookup failures.
* `frozenset(d.items())` is modelled as `List.toFinset` of the binding
  list: the unordered set of `(key, value)` pairs.
* `int(math.ceil(math.log(m, 2)))` is modelled exactly as `Nat.clog 2 m`
  (the real-valued ceiling of the base-2 logarithm); the source computes
  it with floating-point `math.log`, whose rounding is outside the model.
-/

namespace Quarry

/-- Python `dict` lookup on a binding list: the value of the most recent
binding for the key (last write wins); `none` models `KeyError`. -/
def dget {K V : Type} [DecidableEq K] (d : List (K × V)) (k : K) : Option V :=
  (d.reverse.find? (fun kv => decide (kv.1 = k))).map Prod.snd

/-- Python `d[k] = v` on a binding list: append the binding (see `dget`). -/
def dset {K V : Type} (d : List (K × V)) (k : K) (v : V) : List (K × V) :=
  d ++ [(k, v)]

/-- A block property mapping (a Python `dict` of strings), e.g.
`{"level": "1", "name": "minecraft:water"}`. -/
abbrev PropMap := List (String × String)

/-- `class OpaqueRegistry(Registry)`: passes ids through unchanged. -/
structure OpaqueRegistry where
  max_bits : Nat

/-- `def encode(self, kind, obj): return obj` -/
def OpaqueRegistry.encode (_r : OpaqueRegistry) (_kind : String) (obj : Nat) : Nat := obj

/-- `def decode(self, kind, val): return val` -/
def OpaqueRegistry.decode (_r : OpaqueRegistry) (_kind : String) (val : Nat) : Nat := val

/-- `def encode_block(self, obj): return obj` -/
def OpaqueRegistry.encode_block (_r : OpaqueRegistry) (obj : Nat) : Nat := obj

/-- `def decode_block(self, val): return val` -/
def OpaqueRegistry.decode_block (_r : OpaqueRegistry) (val : Nat) : Nat := val

/-- `def is_air_block(self, obj): return obj == 0` -/
def OpaqueRegistry.is_air_block (_r : OpaqueRegistry) (obj : Nat) : Bool :=
  decide (obj = 0)

/-- `class BitShiftRegistry(OpaqueRegistry)`: the 1.7–1.12 bit-shift block
format.  It carries no instance state of its own; named-registry
`encode`/`decode` are inherited unchanged from `OpaqueRegistry`. -/
structure BitShiftRegistry where
  mk' ::

/-- Class attribute `max_bits = 13`. -/
def BitShiftRegistry.max_bits : Nat := 13

/-- Inherited `def encode(self, kind, obj): return obj` -/
def BitShiftRegistry.encode (_r : BitShiftRegistry) (_kind : String) (obj : Nat) : Nat := obj

/-- Inherited `def decode(self, kind, val): return val` -/
def BitShiftRegistry.decode (_r : BitShiftRegistry) (_kind : String) (val : Nat) : Nat := val

/-- `def encode_block(self, obj): return (obj[0] << 4) | obj[1]` — note:
the auxiliary value `obj[1]` is or-ed in unmasked. -/
def BitShiftRegistry.encode_block (_r : BitShiftRegistry) (obj : Nat × Nat) : Nat :=
  (obj.1 <<< 4) ||| obj.2

/-- `def decode_block(self, val): return val >> 4, val & 0x0F` -/
def BitShiftRegistry.decode_block (_r : BitShiftRegistry) (val : Nat) : Nat × Nat :=
  (val >>> 4, val &&& 0x0F)

/-- `def is_air_block(self, obj): return obj[0] == 0` -/
def BitShiftRegistry.is_air_block (_r : BitShiftRegistry) (obj : Nat × Nat) : Bool :=
  decide (obj.1 = 0)

/-- The two `ValueError`s that `LookupRegistry.__init__` can raise while
computing `max_bits`, before any table is exposed.  Both are construction
failures, a kind disjoint from the `LookupError` of the encode/decode
path (which is modelled as `Option.none`). -/
inductive ConstructionError where
  /-- `max()` over the empty `blocks` dict: `ValueError: max() arg is an
  empty sequence`. -/
  | emptySequence
  /-- `math.log(0, 2)` when the greatest block id is 0: `ValueError: math
  domain error`. -/
  | mathDomainError
  deriving DecidableEq, Repr

/-- `class LookupRegistry(Registry)`: dictionary-lookup registry for 1.13+.
Fields are the attributes set by `__init__`. -/
structure LookupRegistry where
  max_bits : Nat
  /-- `self.decode_block_map = blocks` -/
  decode_block_map : List (Nat × PropMap)
  /-- `self.encode_block_map = {frozenset(value.items()): key for key, value in blocks.items()}` -/
  encode_block_map : List (Finset (String × String) × Nat)
  /-- `self.decode_map = registries` -/
  decode_map : List (String × List (Nat × String))
  /-- `self.encode_map = {registry_name: {value: key for key, value in registry.items()} ...}` -/
  encode_map : List (String × List (String × Nat))

/-- `LookupRegistry.__init__(self, blocks, registries)`.  The first
statement computes
`self.max_bits = int(math.ceil(math.log(max(blocks.keys()), 2)))`, which
raises a `ValueError` when `blocks` is empty (from `max()`) or when the
greatest id is 0 (from `math.log(0, 2)`); in either case no attribute is
assigned and no table is exposed.  Otherwise all four maps are built.
The two dict comprehensions are modelled as `List.map` over the binding
lists, which preserves Python's last-write-wins on duplicate keys under
`dget`. -/
def mkLookupRegistry (blocks : List (Nat × PropMap))
    (registries : List (String × List (Nat × String))) :
    Except ConstructionError LookupRegistry :=
  match (blocks.map Prod.fst).max? with
  | none => .error .emptySequence
  | some m =>
    if m = 0 then .error .mathDomainError
    else .ok
      { max_bits := Nat.clog 2 m
        decode_block_map := blocks
        encode_block_map := blocks.map (fun kv => (kv.2.toFinset, kv.1))
        decode_map := registries
        encode_map := registries.map (fun rn => (rn.1, rn.2.map (fun kv => (kv.2, kv.1)))) }

/-- `def encode(self, registry, obj): return self.encode_map[registry][obj]` -/
def LookupRegistry.encode (r : LookupRegistry) (registry : String) (obj : String) :
    Option Nat :=
  (dget r.encode_map registry).bind (fun d => dget d obj)

/-- `def decode(self, registry, val): return self.decode_map[registry][val]` -/
def LookupRegistry.decode (r : LookupRegistry) (registry : String) (val : Nat) :
    Option String :=
  (dget r.decode_map registry).bind (fun d => dget d val)

/-- `def encode_block(self, obj): return self.encode_block_map[frozenset(obj.items())]` -/
def LookupRegistry.encode_block (r : LookupRegistry) (obj : PropMap) : Option Nat :=
  dget r.encode_block_map obj.toFinset

/-- `def decode_block(self, val): return dict(self.decode_block_map[val])` —
the `dict(...)` copy is value-equal to the stored mapping; in this pure
model the returned value is that stored binding list. -/
def LookupRegistry.decode_block (r : LookupRegistry) (val : Nat) : Option PropMap :=
  dget r.decode_block_map val

/-- `def is_air_block(self, obj)`: looks up `obj['name']` (KeyError when
absent, hence `none`) and compares it against the closed enumeration
`('air', 'cave_air', 'void_air')`. -/
def LookupRegistry.is_air_block (_r : LookupRegistry) (obj : PropMap) : Option Bool :=
  match dget obj "name" with
  | none => none
  | some n => some (decide (n = "air") || decide (n = "cave_air") || decide (n = "void_air"))

/-- One entry of `obj['states']` in `blocks.json`: the optional
`properties` mapping (defaulting to `{}`) and the state's `id`. -/
structure BlockState where
  properties : PropMap
  id : Nat

/-- The block-accumulation loop of `from_json`: for every block name and
each of its states, inject the block name under the reserved key `name`
(`properties['name'] = name`) and record the result at the state's id
(`blocks[state['id']] = properties`).  The two nested loops produce the
bindings in dump order; with `dget`'s last-write-wins semantics the
resulting dict is this flattened binding list. -/
def buildBlocks (blocksDump : List (String × List BlockState)) :
    List (Nat × PropMap) :=
  blocksDump.flatMap (fun nb => nb.2.map (fun st => (st.id, dset st.properties "name" nb.1)))

/-- The registry loop of `from_json`: for every named registry in
`registries_temp`, build the dict
`{obj['protocol_id']: name for name, obj in registry['entries'].items()}`
(written as an assignment loop in the source). -/
def buildRegistries (registriesTemp : List (String × List (String × Nat))) :
    List (String × List (Nat × String)) :=
  registriesTemp.map (fun rt => (rt.1, rt.2.map (fun e => (e.2, e.1))))

/-- The pure core of `LookupRegistry.from_json`, after JSON parsing and
file I/O (collaborator responsibilities) are stripped away: an items dump
(when `items.json` exists) is recorded first under the synthesized
registry name `minecraft:item`, the generic registry dumps are then
merged in (`registries_temp.update(...)`, i.e. later bindings win), and
the class constructor is called on the built tables. -/
def from_json (blocksDump : List (String × List BlockState))
    (itemsDump : Option (List (String × Nat)))
    (registriesDump : List (String × List (String × Nat))) :
    Except ConstructionError LookupRegistry :=
  let registriesTemp :=
    (match itemsDump with
     | some items => [("minecraft:item", items)]
     | none => []) ++ registriesDump
  mkLookupRegistry (buildBlocks blocksDump) (buildRegistries registriesTemp)

/-- The two-block-type example table of the spec: `minecraft:stone` at id
1 with no properties, `minecraft:water` at ids 2–3 distinguished by the
`level` property (after `name` injection). -/
def blocksEx : List (Nat × PropMap) :=
  [(1, [("name", "minecraft:stone")]),
   (2, [("level", "0"), ("name", "minecraft:water")]),
   (3, [("level", "1"), ("name", "minecraft:water")])]

/-- The items example registry of the spec, after `from_json` turns the
items dump `{"minecraft:stick": {"protocol_id": 5}}` into an id → name
dict. -/
def registriesEx : List (String × List (Nat × String)) :=
  [("minecraft:item", [(5, "minecraft:stick")])]

/-- The `LookupRegistry` that `mkLookupRegistry blocksEx registriesEx`
builds (the constructor is checked to return exactly this value). -/
def rEx : LookupRegistry :=
  { max_bits := Nat.clog 2 3
    decode_block_map := blocksEx
    encode_block_map := blocksEx.map (fun kv => (kv.2.toFinset, kv.1))
    decode_map := registriesEx
    encode_map := registriesEx.map (fun rn => (rn.1, rn.2.map (fun kv => (kv.2, kv.1)))) }

/-- A block table whose greatest id (4) is a power of two. -/
def blocksPow : List (Nat × PropMap) :=
  [(1, [("name", "minecraft:stone")]), (4, [("name", "minecraft:dirt")])]

/-- The `LookupRegistry` built from `blocksPow`. -/
def rPow : LookupRegistry :=
  { max_bits := Nat.clog 2 4
    decode_block_map := blocksPow
    encode_block_map := blocksPow.map (fun kv => (kv.2.toFinset, kv.1))
    decode_map := []
    encode_map := [] }

/-- The raw `blocks.json` dump behind `blocksEx` (before `name`
injection). -/
def blocksDumpEx : List (String × List BlockState) :=
  [("minecraft:stone", [⟨[], 1⟩]),
   ("minecraft:water", [⟨[("level", "0")], 2⟩, ⟨[("level", "1")], 3⟩])]

/-- The items dump `{"minecraft:stick": {"protocol_id": 5}}`. -/
def itemsDumpEx : List (String × Nat) :=
  [("minecraft:stick", 5)]

/-! ### Helper lemmas about the Python dict model -/

theorem dget_dset_same {K V : Type} [DecidableEq K] (d : List (K × V)) (k : K) (v : V) :
    dget (dset d k v) k = some v := by
  unfold dget dset
  rw [List.reverse_append]
  simp [List.find?]

theorem dget_eq_none_iff {K V : Type} [DecidableEq K] {d : List (K × V)} {k : K} :
    dget d k = none ↔ ∀ kv ∈ d, kv.1 ≠ k := by
  simp [dget, List.find?_eq_none, List.mem_reverse]

theorem dget_mem {K V : Type} [DecidableEq K] {d : List (K × V)} {k : K} {v : V}
    (h : dget d k = some v) : (k, v) ∈ d := by
  unfold dget at h
  cases hf : d.reverse.find? (fun kv => decide (kv.1 = k)) with
  | none => rw [hf] at h; simp at h
  | some kv =>
    rw [hf] at h
    have hm := List.mem_of_find?_eq_some hf
    have hp := List.find?_some hf
    simp at h hp
    rw [List.mem_reverse] at hm
    obtain ⟨k', v'⟩ := kv
    simp only at hp h
    rw [← hp, ← h]
    exact hm

theorem eq_of_mem_nodup_keys {K V : Type} {d : List (K × V)}
    (hnd : (d.map Prod.fst).Nodup) {k : K} {a b : V}
    (ha : (k, a) ∈ d) (hb : (k, b) ∈ d) : a = b := by
  induction d with
  | nil => cases ha
  | cons hd tl ih =>
    simp only [List.map_cons, List.nodup_cons] at hnd
    obtain ⟨hk1, hnd2⟩ := hnd
    rcases List.mem_cons.mp ha with ha' | ha' <;>
      rcases List.mem_cons.mp hb with hb' | hb'
    · exact congrArg Prod.snd (ha'.trans hb'.symm)
    · exfalso
      apply hk1
      rw [← ha']
      exact List.mem_map.mpr ⟨(k, b), hb', rfl⟩
    · exfalso
      apply hk1
      rw [← hb']
      exact List.mem_map.mpr ⟨(k, a), ha', rfl⟩
    · exact ih hnd2 ha' hb'

theorem dget_of_mem_nodup {K V : Type} [DecidableEq K] {d : List (K × V)}
    (hnd : (d.map Prod.fst).Nodup) {k : K} {v : V} (hm : (k, v) ∈ d) :
    dget d k = some v := by
  cases h : dget d k with
  | none =>
    rw [dget_eq_none_iff] at h
    exact absurd rfl (h (k, v) hm)
  | some w =>
    rw [eq_of_mem_nodup_keys hnd (dget_mem h) hm]

/-! ### Helper lemmas about bit arithmetic and `Nat.clog` -/

theorem lor_two_pow_mul {n p a : Nat} (ha : a < 2 ^ n) :
    2 ^ n * p ||| a = 2 ^ n * p + a := by
  induction n generalizing p a with
  | zero =>
    have : a = 0 := Nat.lt_one_iff.mp ha
    subst this
    simp
  | succ n ih =>
    have hpow : 2 ^ (n + 1) = 2 * 2 ^ n := by rw [Nat.pow_succ, Nat.mul_comm]
    have hdiv : 2 ^ (n + 1) * p / 2 = 2 ^ n * p := by
      rw [hpow, Nat.mul_assoc, Nat.mul_div_cancel_left _ (by omega)]
    have hmod : 2 ^ (n + 1) * p % 2 = 0 := by
      rw [hpow, Nat.mul_assoc, Nat.mul_mod_right]
    have ha2 : a / 2 < 2 ^ n := by
      rw [hpow] at ha; omega
    have h2 : (2 ^ (n + 1) * p ||| a) / 2 = 2 ^ n * p + a / 2 := by
      rw [Nat.or_div_two, hdiv, ih ha2]
    have h1 : (2 ^ (n + 1) * p ||| a) % 2 = a % 2 := by
      rcases Nat.mod_two_eq_zero_or_one a with haz | hao
      · have : ¬ ((2 ^ (n + 1) * p ||| a) % 2 = 1) := by
          rw [Nat.or_mod_two_eq_one]
          omega
        omega
      · rw [Nat.or_mod_two_eq_one.mpr (Or.inr hao), hao]
    have hx := Nat.div_add_mod (2 ^ (n + 1) * p ||| a) 2
    have hy := Nat.div_add_mod a 2
    omega

theorem clog2_eq_of {m k : Nat} (h1 : m ≤ 2 ^ k) (h2 : 2 ^ k < 2 * m) :
    Nat.clog 2 m = k := by
  have hle : Nat.clog 2 m ≤ k := (Nat.le_pow_iff_clog_le Nat.one_lt_two).mp h1
  rcases Nat.eq_zero_or_pos k with hk | hk
  · omega
  · have hgt : ¬ Nat.clog 2 m ≤ k - 1 := by
      intro h
      have hm : m ≤ 2 ^ (k - 1) := (Nat.le_pow_iff_clog_le Nat.one_lt_two).mpr h
      have hp : 2 ^ k = 2 ^ (k - 1) * 2 := by
        conv_lhs => rw [show k = (k - 1) + 1 by omega]
        rw [Nat.pow_succ]
      omega
    omega

/-- Inversion of `mkLookupRegistry`: a successful construction exposes
exactly the four tables built from the inputs, and `max_bits` is the
ceiling log of the greatest (non-zero) block id. -/
theorem mk_ok_inv {blocks : List (Nat × PropMap)}
    {registries : List (String × List (Nat × String))} {r : LookupRegistry}
    (h : mkLookupRegistry blocks registries = .ok r) :
    r.decode_block_map = blocks ∧
    r.encode_block_map = blocks.map (fun kv => (kv.2.toFinset, kv.1)) ∧
    r.decode_map = registries ∧
    r.encode_map = registries.map (fun rn => (rn.1, rn.2.map (fun kv => (kv.2, kv.1)))) ∧
    ∃ m, (blocks.map Prod.fst).max? = some m ∧ m ≠ 0 ∧ r.max_bits = Nat.clog 2 m := by
  unfold mkLookupRegistry at h
  split at h
  · exact absurd h (by simp)
  · next m hm =>
    split at h
    · exact absurd h (by simp)
    · next hz =>
      injection h with h'
      subst h'
      exact ⟨rfl, rfl, rfl, rfl, m, hm, hz, rfl⟩

/-- Arithmetic reading of the bit-shift encoder: for a 4-bit auxiliary
value the packed id is `16 * primary + aux`. -/
theorem encode_block_eq_arith (r : BitShiftRegistry) {p a : Nat} (ha : a ≤ 15) :
    r.encode_block (p, a) = 16 * p + a := by
  show (p <<< 4) ||| a = 16 * p + a
  rw [Nat.shiftLeft_eq, Nat.mul_comm, lor_two_pow_mul (by omega : a < 2 ^ 4)]
  norm_num

/-- Arithmetic reading of the bit-shift decoder: division and remainder
by 16. -/
theorem decode_block_eq_arith (r : BitShiftRegistry) (i : Nat) :
    r.decode_block i = (i / 16, i % 16) := by
  show (i >>> 4, i &&& 0x0F) = (i / 16, i % 16)
  rw [Nat.shiftRight_eq_div_pow]
  rw [show (0x0F : Nat) = 2 ^ 4 - 1 by norm_num, Nat.and_pow_two_sub_one_eq_mod]

/-- C3, counterexample: the claim states
`encode_block((primary, aux)) = (primary << 4) | (aux & 0xF)` for every
pair of integers, but the source computes `(obj[0] << 4) | obj[1]`
without masking the auxiliary value; at `(0, 16)` the source yields 16
while the claimed formula yields 0. -/
theorem C3_counterexample :
    BitShiftRegistry.mk'.encode_block (0, 16) ≠ ((0 <<< 4) ||| (16 &&& 0x0F)) := by
  decide

/-- C3, amended: `encode_block((primary, aux)) = (primary << 4) | aux`
with no masking of `aux`; this agrees with the claimed masked formula
(and equals `16 * primary + aux`) exactly when `0 ≤ aux ≤ 15`, and
`decode_block(id) = (id >> 4, id & 0xF) = (id div 16, id mod 16)` for
every id. -/
theorem C3_bitshift_formulas (r : BitShiftRegistry) (p a i : Nat) (ha : a ≤ 15) :
    r.encode_block (p, a) = (p <<< 4) ||| (a &&& 0x0F) ∧
    r.encode_block (p, a) = 16 * p + a ∧
    r.decode_block i = (i >>> 4, i &&& 0x0F) ∧
    r.decode_block i = (i / 16, i % 16) := by
  have hmask : a &&& 0x0F = a := by
    rw [show (0x0F : Nat) = 2 ^ 4 - 1 by norm_num, Nat.and_pow_two_sub_one_eq_mod]
    norm_num
    omega
  refine ⟨?_, encode_block_eq_arith r ha, rfl, decode_block_eq_arith r i⟩
  show (p <<< 4) ||| a = (p <<< 4) ||| (a &&& 0x0F)
  rw [hmask]

/-- Witness for C3's amended theorem at `(primary, aux) = (7, 3)` and
`id = 115`. -/
theorem C3_bitshift_formulas_witness :
    (3 : Nat) ≤ 15 ∧
    (BitShiftRegistry.mk'.encode_block (7, 3) = (7 <<< 4) ||| (3 &&& 0x0F) ∧
     BitShiftRegistry.mk'.encode_block (7, 3) = 16 * 7 + 3 ∧
     BitShiftRegistry.mk'.decode_block 115 = (115 >>> 4, 115 &&& 0x0F) ∧
     BitShiftRegistry.mk'.decode_block 115 = (115 / 16, 115 % 16)) :=
  ⟨by decide, C3_bitshift_formulas BitShiftRegistry.mk' 7 3 115 (by decide)⟩

/-- C5: constructing a Lookup table from an empty block dump fails at
construction time — `max()` raises before any map is assigned — with an
error of the construction kind (`ConstructionError`, here the
`max()`-on-empty-sequence `ValueError`), a type disjoint from the
`Option.none` that models the `LookupError` of the encode/decode path;
no registry value is ever produced. -/
theorem C5_empty_dump_construction_error
    (registries : List (String × List (Nat × String))) :
    mkLookupRegistry [] registries = .error .emptySequence ∧
    ∀ r, mkLookupRegistry [] registries ≠ .ok r := by
  refine ⟨rfl, fun r h => ?_⟩
  rw [show mkLookupRegistry [] registries = .error .emptySequence from rfl] at h
  exact Except.noConfusion h

/-- Witness for C5 at the empty registry dump. -/
theorem C5_empty_dump_witness :
    mkLookupRegistry [] [] = .error .emptySequence :=
  (C5_empty_dump_construction_error []).1

/-- C10: a non-empty block table whose greatest id is 0 also fails at
construction time, with the width-bound computation's error
(`math.log(0, 2)` raising `ValueError: math domain error`); construction
succeeds exactly when some block id is at least 1. -/
theorem C10_construction_needs_positive_id
    (blocks : List (Nat × PropMap)) (registries : List (String × List (Nat × String))) :
    ((blocks.map Prod.fst).max? = some 0 →
      mkLookupRegistry blocks registries = .error .mathDomainError) ∧
    ((∃ r, mkLookupRegistry blocks registries = .ok r) ↔ ∃ p ∈ blocks, 1 ≤ p.1) := by
  constructor
  · intro h
    unfold mkLookupRegistry
    split
    · next heq => rw [heq] at h; cases h
    · next m' heq =>
      rw [heq] at h
      injection h with h'
      subst h'
      rw [if_pos rfl]
  · constructor
    · rintro ⟨r, hr⟩
      obtain ⟨_, _, _, _, m, hm, hz, _⟩ := mk_ok_inv hr
      have hmem : m ∈ blocks.map Prod.fst := (List.max?_eq_some_iff'.mp hm).1
      obtain ⟨p, hp, hpm⟩ := List.mem_map.mp hmem
      exact ⟨p, hp, by omega⟩
    · rintro ⟨p, hp, hp1⟩
      have hms : (blocks.map Prod.fst).max?.isSome :=
        List.isSome_max?_of_mem (List.mem_map.mpr ⟨p, hp, rfl⟩)
      obtain ⟨m, hm⟩ := Option.isSome_iff_exists.mp hms
      have hle : p.1 ≤ m :=
        (List.max?_eq_some_iff'.mp hm).2 p.1 (List.mem_map.mpr ⟨p, hp, rfl⟩)
      have hmne : ¬ (m = 0) := by omega
      refine ⟨{ max_bits := Nat.clog 2 m
                decode_block_map := blocks
                encode_block_map := blocks.map (fun kv => (kv.2.toFinset, kv.1))
                decode_map := registries
                encode_map := registries.map
                  (fun rn => (rn.1, rn.2.map (fun kv => (kv.2, kv.1)))) }, ?_⟩
      unfold mkLookupRegistry
      split
      · next heq => rw [heq] at hm; cases hm
      · next m' heq =>
        rw [heq] at hm
        injection hm with hm'
        subst hm'
        rw [if_neg hmne]

/-- Witness for C10 at a single block state with id 0 (failure) and at
`blocksEx` (success, id 3 ≥ 1 present). -/
theorem C10_construction_witness :
    mkLookupRegistry [(0, [("name", "minecraft:air")])] [] = .error .mathDomainError ∧
    ((∃ r, mkLookupRegistry blocksEx registriesEx = .ok r) ↔ ∃ p ∈ blocksEx, 1 ≤ p.1) :=
  ⟨(C10_construction_needs_positive_id [(0, [("name", "minecraft:air")])] []).1 (by decide),
   (C10_construction_needs_positive_id blocksEx registriesEx).2⟩

/-- C4, counterexample: the claim states `max_bits` is the minimum bit
count needed to represent every valid id, but for a table whose greatest
id is 4 (a power of two) the source computes
`ceil(log2(4)) = 2` while id 4 needs 3 bits: `4 < 2 ^ 2` is false. -/
theorem C4_counterexample :
    mkLookupRegistry blocksPow [] = .ok rPow ∧
    rPow.max_bits = 2 ∧
    (4, [("name", "minecraft:dirt")]) ∈ rPow.decode_block_map ∧
    ¬ ((4 : Nat) < 2 ^ rPow.max_bits) := by
  have hclog : Nat.clog 2 4 = 2 := clog2_eq_of (by norm_num) (by norm_num)
  have hmb : rPow.max_bits = 2 := hclog
  refine ⟨rfl, hmb, by decide, ?_⟩
  rw [hmb]
  decide

/-- C4, amended: `max_bits = ceil(log2(max id))` (`Nat.clog 2`), which is
the least `k` with `max id ≤ 2 ^ k`; every id in the table fits in
`max_bits` bits whenever the greatest id is not an exact power of two
(when it is, one more bit is needed, as the counterexample shows). -/
theorem C4_max_bits (blocks : List (Nat × PropMap))
    (registries : List (String × List (Nat × String))) (r : LookupRegistry) (m : Nat)
    (hok : mkLookupRegistry blocks registries = .ok r)
    (hm : (blocks.map Prod.fst).max? = some m) :
    r.max_bits = Nat.clog 2 m ∧
    m ≤ 2 ^ r.max_bits ∧
    (∀ k, m ≤ 2 ^ k → r.max_bits ≤ k) ∧
    ((¬ ∃ j, m = 2 ^ j) → ∀ p ∈ blocks, p.1 < 2 ^ r.max_bits) := by
  obtain ⟨_, _, _, _, m', hm', hz, hmb⟩ := mk_ok_inv hok
  rw [hm] at hm'
  injection hm' with he
  subst he
  have hself : m ≤ 2 ^ r.max_bits := by
    rw [hmb]
    exact (Nat.le_pow_iff_clog_le Nat.one_lt_two).mpr (le_refl _)
  refine ⟨hmb, hself, ?_, ?_⟩
  · intro k hk
    rw [hmb]
    exact (Nat.le_pow_iff_clog_le Nat.one_lt_two).mp hk
  · intro hnp p hp
    have hle : p.1 ≤ m :=
      (List.max?_eq_some_iff'.mp hm).2 p.1 (List.mem_map.mpr ⟨p, hp, rfl⟩)
    have h2 : m ≠ 2 ^ r.max_bits := fun h => hnp ⟨r.max_bits, h⟩
    omega

/-- Witness for C4's amended theorem at `blocksEx` (greatest id 3, so
`max_bits = clog 2 3 = 2` as in the spec's example). -/
theorem C4_max_bits_witness :
    rEx.max_bits = Nat.clog 2 3 ∧
    3 ≤ 2 ^ rEx.max_bits ∧
    (∀ k, 3 ≤ 2 ^ k → rEx.max_bits ≤ k) ∧
    ((¬ ∃ j, 3 = 2 ^ j) → ∀ p ∈ blocksEx, p.1 < 2 ^ rEx.max_bits) :=
  C4_max_bits blocksEx registriesEx rEx 3 rfl rfl

/-- C1: round-trip laws for all three strategies. Opaque: both
compositions are the identity on every id. BitShift: decoding an encoded
pair recovers it whenever the auxiliary value fits in 4 bits, and
encoding a decoded id recovers every id. Lookup: for a table built by
the constructor from a dict (unique ids) in which distinct ids carry
distinct property sets, every stored `(id, props)` pair satisfies both
`decode_block(encode_block(props)) = props` and
`encode_block(decode_block(id)) = id`. -/
theorem C1_round_trip :
    (∀ (r : OpaqueRegistry) (b : Nat),
        r.decode_block (r.encode_block b) = b ∧ r.encode_block (r.decode_block b) = b) ∧
    (∀ (r : BitShiftRegistry) (p a : Nat), a ≤ 15 →
        r.decode_block (r.encode_block (p, a)) = (p, a)) ∧
    (∀ (r : BitShiftRegistry) (i : Nat), r.encode_block (r.decode_block i) = i) ∧
    (∀ (blocks : List (Nat × PropMap)) (registries : List (String × List (Nat × String)))
        (r : LookupRegistry),
        mkLookupRegistry blocks registries = .ok r →
        (blocks.map Prod.fst).Nodup →
        (∀ p ∈ blocks, ∀ q ∈ blocks, p.2.toFinset = q.2.toFinset → p.1 = q.1) →
        ∀ i b, (i, b) ∈ blocks →
          r.encode_block b = some i ∧ r.decode_block i = some b ∧
          (r.encode_block b).bind r.decode_block = some b ∧
          (r.decode_block i).bind r.encode_block = some i) := by
  refine ⟨fun r b => ⟨rfl, rfl⟩, ?_, ?_, ?_⟩
  · intro r p a ha
    rw [encode_block_eq_arith r ha, decode_block_eq_arith]
    have h1 : (16 * p + a) / 16 = p := by omega
    have h2 : (16 * p + a) % 16 = a := by omega
    rw [h1, h2]
  · intro r i
    rw [decode_block_eq_arith, encode_block_eq_arith r (by omega : i % 16 ≤ 15)]
    omega
  · intro blocks registries r hok hnd hinj i b hib
    obtain ⟨hdec, henc, _, _, _⟩ := mk_ok_inv hok
    have hencb : r.encode_block b = some i := by
      show dget r.encode_block_map b.toFinset = some i
      rw [henc]
      cases hh : dget (blocks.map fun kv => (kv.2.toFinset, kv.1)) b.toFinset with
      | none =>
        rw [dget_eq_none_iff] at hh
        exact absurd rfl (hh (b.toFinset, i) (List.mem_map.mpr ⟨(i, b), hib, rfl⟩))
      | some j =>
        have hmem := dget_mem hh
        obtain ⟨q, hq, hqe⟩ := List.mem_map.mp hmem
        have hqf : q.2.toFinset = b.toFinset := congrArg Prod.fst hqe
        have hqi : q.1 = j := congrArg Prod.snd hqe
        have hqib : q.1 = i := hinj q hq (i, b) hib hqf
        have : j = i := by omega
        rw [this]
    have hdecb : r.decode_block i = some b := by
      show dget r.decode_block_map i = some b
      rw [hdec]
      exact dget_of_mem_nodup hnd hib
    refine ⟨hencb, hdecb, ?_, ?_⟩
    · rw [hencb]; exact hdecb
    · rw [hdecb]; exact hencb

/-- Witness for C1 at each strategy: Opaque at id 5, BitShift at
`(7, 3)` and id 115, Lookup at the `blocksEx` table's id 3. -/
theorem C1_round_trip_witness :
    ((OpaqueRegistry.mk 14).decode_block ((OpaqueRegistry.mk 14).encode_block 5) = 5) ∧
    BitShiftRegistry.mk'.decode_block (BitShiftRegistry.mk'.encode_block (7, 3)) = (7, 3) ∧
    BitShiftRegistry.mk'.encode_block (BitShiftRegistry.mk'.decode_block 115) = 115 ∧
    (rEx.encode_block [("level", "1"), ("name", "minecraft:water")] = some 3 ∧
     rEx.decode_block 3 = some [("level", "1"), ("name", "minecraft:water")] ∧
     (rEx.encode_block [("level", "1"), ("name", "minecraft:water")]).bind rEx.decode_block =
       some [("level", "1"), ("name", "minecraft:water")] ∧
     (rEx.decode_block 3).bind rEx.encode_block = some 3) :=
  ⟨(C1_round_trip.1 (OpaqueRegistry.mk 14) 5).1,
   C1_round_trip.2.1 BitShiftRegistry.mk' 7 3 (by decide),
   C1_round_trip.2.2.1 BitShiftRegistry.mk' 115,
   C1_round_trip.2.2.2 blocksEx registriesEx rEx rfl (by decide) (by decide) 3
     [("level", "1"), ("name", "minecraft:water")] (by decide)⟩

/-- C2: in the Lookup strategy (the only strategy holding tables in
which a name, value or id can be absent — Opaque and BitShift translate
every integer), every lookup miss is a `LookupError` (modelled `none`)
and never a default value: an unknown registry name fails both `encode`
and `decode`, a known registry with an absent value fails `encode`, an
absent id fails `decode`, a property set stored for no id fails
`encode_block`, and an id outside the table fails `decode_block`. -/
theorem C2_lookup_errors (blocks : List (Nat × PropMap))
    (registries : List (String × List (Nat × String))) (r : LookupRegistry)
    (hok : mkLookupRegistry blocks registries = .ok r)
    (hnames : (registries.map Prod.fst).Nodup) :
    (∀ name v i, (∀ e ∈ registries, e.1 ≠ name) →
        r.encode name v = none ∧ r.decode name i = none) ∧
    (∀ e ∈ registries, ∀ v, (∀ p ∈ e.2, p.2 ≠ v) → r.encode e.1 v = none) ∧
    (∀ e ∈ registries, ∀ i, (∀ p ∈ e.2, p.1 ≠ i) → r.decode e.1 i = none) ∧
    (∀ b : PropMap, (∀ p ∈ blocks, p.2.toFinset ≠ b.toFinset) → r.encode_block b = none) ∧
    (∀ i, (∀ p ∈ blocks, p.1 ≠ i) → r.decode_block i = none) := by
  obtain ⟨hdec, hencb, hdm, hem, _⟩ := mk_ok_inv hok
  refine ⟨?_, ?_, ?_, ?_, ?_⟩
  · intro name v i hunk
    constructor
    · show (dget r.encode_map name).bind (fun d => dget d v) = none
      have hn : dget r.encode_map name = none := by
        rw [hem, dget_eq_none_iff]
        intro kv hkv
        obtain ⟨e, he, hee⟩ := List.mem_map.mp hkv
        have h1 : kv.1 = e.1 := (congrArg Prod.fst hee).symm
        rw [h1]
        exact hunk e he
      rw [hn]
      rfl
    · show (dget r.decode_map name).bind (fun d => dget d i) = none
      have hn : dget r.decode_map name = none := by
        rw [hdm, dget_eq_none_iff]
        exact hunk
      rw [hn]
      rfl
  · intro e he v habs
    show (dget r.encode_map e.1).bind (fun d => dget d v) = none
    rw [hem]
    have hme : dget (registries.map fun rn => (rn.1, rn.2.map fun kv => (kv.2, kv.1))) e.1
        = some (e.2.map fun kv => (kv.2, kv.1)) := by
      apply dget_of_mem_nodup
      · have hkeys :
            ((registries.map fun rn => (rn.1, rn.2.map fun kv => (kv.2, kv.1))).map Prod.fst)
              = registries.map Prod.fst := by
          rw [List.map_map]
          rfl
        rw [hkeys]
        exact hnames
      · exact List.mem_map.mpr ⟨e, he, rfl⟩
    rw [hme]
    show dget (e.2.map fun kv => (kv.2, kv.1)) v = none
    rw [dget_eq_none_iff]
    intro kv hkv
    obtain ⟨p, hp, hpe⟩ := List.mem_map.mp hkv
    have h1 : kv.1 = p.2 := (congrArg Prod.fst hpe).symm
    rw [h1]
    exact habs p hp
  · intro e he i habs
    show (dget r.decode_map e.1).bind (fun d => dget d i) = none
    rw [hdm, dget_of_mem_nodup hnames he]
    show dget e.2 i = none
    rw [dget_eq_none_iff]
    exact habs
  · intro b habs
    show dget r.encode_block_map b.toFinset = none
    rw [hencb, dget_eq_none_iff]
    intro kv hkv
    obtain ⟨p, hp, hpe⟩ := List.mem_map.mp hkv
    have h1 : kv.1 = p.2.toFinset := (congrArg Prod.fst hpe).symm
    rw [h1]
    exact habs p hp
  · intro i habs
    show dget r.decode_block_map i = none
    rw [hdec, dget_eq_none_iff]
    exact habs

/-- Witness for C2 on `rEx`: an unknown registry name, an absent item
name, an absent item id, an unknown property set and an out-of-range
block id all fail with `none`. -/
theorem C2_lookup_errors_witness :
    (rEx.encode "minecraft:sound" "x" = none ∧ rEx.decode "minecraft:sound" 1 = none) ∧
    rEx.encode "minecraft:item" "minecraft:diamond" = none ∧
    rEx.decode "minecraft:item" 6 = none ∧
    rEx.encode_block [("name", "minecraft:gold")] = none ∧
    rEx.decode_block 9 = none := by
  have h := C2_lookup_errors blocksEx registriesEx rEx rfl (by decide)
  exact ⟨h.1 "minecraft:sound" "x" 1 (by decide),
         h.2.1 ("minecraft:item", [(5, "minecraft:stick")]) (by decide)
           "minecraft:diamond" (by decide),
         h.2.2.1 ("minecraft:item", [(5, "minecraft:stick")]) (by decide) 6 (by decide),
         h.2.2.2.1 [("name", "minecraft:gold")] (by decide),
         h.2.2.2.2 9 (by decide)⟩

/-- C6: Lookup `encode_block` keys the reverse table by
`frozenset(obj.items())`, so its result — the found id or the
`LookupError` — depends only on the unordered set of (property, value)
pairs of the representation, not on key order. -/
theorem C6_encode_block_order_insensitive (r : LookupRegistry) (a b : PropMap)
    (h : a.toFinset = b.toFinset) :
    r.encode_block a = r.encode_block b := by
  show dget r.encode_block_map a.toFinset = dget r.encode_block_map b.toFinset
  rw [h]

/-- Witness for C6: the two orderings of the water-level-1 properties
have the same pair set and encode to the same id 3 in `rEx`. -/
theorem C6_encode_block_order_witness :
    ([("level", "1"), ("name", "minecraft:water")] : PropMap).toFinset =
      ([("name", "minecraft:water"), ("level", "1")] : PropMap).toFinset ∧
    rEx.encode_block [("level", "1"), ("name", "minecraft:water")] =
      rEx.encode_block [("name", "minecraft:water"), ("level", "1")] ∧
    rEx.encode_block [("name", "minecraft:water"), ("level", "1")] = some 3 :=
  ⟨by decide,
   C6_encode_block_order_insensitive rEx _ _ (by decide),
   by decide⟩

/-- C7: for every named registry of a constructed Lookup table whose
entries carry unique protocol ids and unique names, `encode` and
`decode` are mutually inverse: every stored `(id, name)` pair decodes
and encodes back to itself in both compositions; in particular the
`from_json` items dump `{"minecraft:stick": {"protocol_id": 5}}` gives
`encode("minecraft:item", "minecraft:stick") = 5` and
`decode("minecraft:item", 5) = "minecraft:stick"`. -/
theorem C7_registry_bijection :
    (∀ (blocks : List (Nat × PropMap)) (registries : List (String × List (Nat × String)))
        (r : LookupRegistry),
      mkLookupRegistry blocks registries = .ok r →
      (registries.map Prod.fst).Nodup →
      ∀ e ∈ registries, (e.2.map Prod.fst).Nodup → (e.2.map Prod.snd).Nodup →
        ∀ i nm, (i, nm) ∈ e.2 →
          r.decode e.1 i = some nm ∧ r.encode e.1 nm = some i ∧
          (r.decode e.1 i).bind (r.encode e.1) = some i ∧
          (r.encode e.1 nm).bind (r.decode e.1) = some nm) ∧
    (from_json blocksDumpEx (some itemsDumpEx) [] = .ok rEx ∧
      rEx.encode "minecraft:item" "minecraft:stick" = some 5 ∧
      rEx.decode "minecraft:item" 5 = some "minecraft:stick") := by
  constructor
  · intro blocks registries r hok hnames e he hids hvals i nm hin
    obtain ⟨_, _, hdm, hem, _⟩ := mk_ok_inv hok
    have hdecode : r.decode e.1 i = some nm := by
      show (dget r.decode_map e.1).bind (fun d => dget d i) = some nm
      rw [hdm, dget_of_mem_nodup hnames he]
      show dget e.2 i = some nm
      exact dget_of_mem_nodup hids hin
    have hencode : r.encode e.1 nm = some i := by
      show (dget r.encode_map e.1).bind (fun d => dget d nm) = some i
      rw [hem]
      have hme : dget (registries.map fun rn => (rn.1, rn.2.map fun kv => (kv.2, kv.1))) e.1
          = some (e.2.map fun kv => (kv.2, kv.1)) := by
        apply dget_of_mem_nodup
        · have hkeys :
              ((registries.map fun rn => (rn.1, rn.2.map fun kv => (kv.2, kv.1))).map Prod.fst)
                = registries.map Prod.fst := by
            rw [List.map_map]
            rfl
          rw [hkeys]
          exact hnames
        · exact List.mem_map.mpr ⟨e, he, rfl⟩
      rw [hme]
      show dget (e.2.map fun kv => (kv.2, kv.1)) nm = some i
      apply dget_of_mem_nodup
      · have hkeys : ((e.2.map fun kv => (kv.2, kv.1)).map Prod.fst) = e.2.map Prod.snd := by
          rw [List.map_map]
          rfl
        rw [hkeys]
        exact hvals
      · exact List.mem_map.mpr ⟨(i, nm), hin, rfl⟩
    refine ⟨hdecode, hencode, ?_, ?_⟩
    · rw [hdecode]; exact hencode
    · rw [hencode]; exact hdecode
  · exact ⟨rfl, by decide, by decide⟩

/-- Witness for C7 at the items registry of `rEx`. -/
theorem C7_registry_bijection_witness :
    rEx.decode "minecraft:item" 5 = some "minecraft:stick" ∧
    rEx.encode "minecraft:item" "minecraft:stick" = some 5 ∧
    (rEx.decode "minecraft:item" 5).bind (rEx.encode "minecraft:item") = some 5 ∧
    (rEx.encode "minecraft:item" "minecraft:stick").bind (rEx.decode "minecraft:item") =
      some "minecraft:stick" :=
  C7_registry_bijection.1 blocksEx registriesEx rEx rfl (by decide)
    ("minecraft:item", [(5, "minecraft:stick")]) (by decide) (by decide) (by decide)
    5 "minecraft:stick" (by decide)

/-- C8: for a block representation carrying a `name` key, Lookup
`is_air_block` returns true exactly when that name is `air`, `cave_air`
or `void_air`, and false otherwise (the enumeration is closed; e.g.
`minecraft:stone` is not air). -/
theorem C8_is_air_block (r : LookupRegistry) (b : PropMap) (n : String)
    (h : dget b "name" = some n) :
    (r.is_air_block b = some true ↔ (n = "air" ∨ n = "cave_air" ∨ n = "void_air")) ∧
    (r.is_air_block b = some false ↔ ¬ (n = "air" ∨ n = "cave_air" ∨ n = "void_air")) := by
  constructor <;> simp [LookupRegistry.is_air_block, h] <;> tauto

/-- Witness for C8: stone is not air, `cave_air` is. -/
theorem C8_is_air_block_witness :
    rEx.is_air_block [("name", "minecraft:stone")] = some false ∧
    rEx.is_air_block [("name", "cave_air")] = some true :=
  ⟨(C8_is_air_block rEx [("name", "minecraft:stone")] "minecraft:stone" (by decide)).2.mpr
     (by decide),
   (C8_is_air_block rEx [("name", "cave_air")] "cave_air" (by decide)).1.mpr (by decide)⟩

/-- C9: Lookup `decode_block` is a pure lookup returning (a copy of) the
stored property mapping — in this pure model, a value equal to the
stored binding list — and for a table built by `from_json` every such
mapping carries the injected `name` key; no operation mutates the
table, which is modelled by all operations being functions of the
immutable registry value (repeated calls return the same stored
mapping). -/
theorem C9_decode_block_copy (bd : List (String × List BlockState))
    (items : Option (List (String × Nat)))
    (rd : List (String × List (String × Nat))) (r : LookupRegistry)
    (hok : from_json bd items rd = .ok r) :
    (∀ i, r.decode_block i = dget r.decode_block_map i) ∧
    (∀ i m, r.decode_block i = some m →
      (i, m) ∈ r.decode_block_map ∧ ∃ nm, dget m "name" = some nm) := by
  unfold from_json at hok
  obtain ⟨hdec, _, _, _, _⟩ := mk_ok_inv hok
  refine ⟨fun i => rfl, ?_⟩
  intro i m hm
  have hmem : (i, m) ∈ r.decode_block_map := dget_mem hm
  refine ⟨hmem, ?_⟩
  rw [hdec] at hmem
  unfold buildBlocks at hmem
  rw [List.mem_flatMap] at hmem
  obtain ⟨nb, hnb, hst⟩ := hmem
  rw [List.mem_map] at hst
  obtain ⟨st, hst', he⟩ := hst
  have hm2 : m = dset st.properties "name" nb.1 := (congrArg Prod.snd he).symm
  exact ⟨nb.1, by rw [hm2]; exact dget_dset_same _ _ _⟩

/-- Witness for C9 at id 2 of the `from_json`-built example table. -/
theorem C9_decode_block_copy_witness :
    (2, [("level", "0"), ("name", "minecraft:water")]) ∈ rEx.decode_block_map ∧
    ∃ nm, dget ([("level", "0"), ("name", "minecraft:water")] : PropMap) "name" = some nm :=
  (C9_decode_block_copy blocksDumpEx (some itemsDumpEx) [] rEx rfl).2 2
    [("level", "0"), ("name", "minecraft:water")] (by decide)

end Quarry
